import Mathlib

/-!
Shallow embedding of `src/modules/go.go` (package `modules` of NetVM/wagon):
the Go-WASM host runtime emulating `wasm_exec.js`.  Guest linear memory is
modelled as a total byte map (the external Memory Accessor's out-of-bounds
panics are outside the modelled state space); Go's `map[ref]Value` is an
association list with Go's zero-`Value` semantics on a missing key; a Go
`float64` is represented by its 64 raw IEEE-754 bits, with the code's
`uint64(v)` / `float64(u)` numeric conversions made explicit.
-/

namespace Wagon

/-- Guest linear memory: byte-addressed, little-endian accesses below. -/
abbrev Mem := Nat → Nat

/-- Write one byte (the low 8 bits of `v`) at address `a`. -/
def writeByte (m : Mem) (a v : Nat) : Mem :=
  fun x => if x = a then v % 256 else m x

/-- Write `n` bytes of `v` little-endian starting at `a`
(`binary.LittleEndian.PutUintNN`). -/
def writeLE (m : Mem) : Nat → Nat → Nat → Mem
  | _, 0, _ => m
  | a, n + 1, v => writeLE (writeByte m a v) (a + 1) n (v / 256)

/-- Read `n` bytes little-endian starting at `a`
(`binary.LittleEndian.UintNN`). -/
def readLE (m : Mem) : Nat → Nat → Nat
  | _, 0 => 0
  | a, n + 1 => m a % 256 + 256 * readLE m (a + 1) n

theorem writeByte_apply_ne (m : Mem) (a v x : Nat) (h : x ≠ a) :
    writeByte m a v x = m x := by
  simp [writeByte, h]

theorem writeLE_apply_out (n : Nat) : ∀ (m : Mem) (a v x : Nat),
    x < a ∨ a + n ≤ x → writeLE m a n v x = m x := by
  induction n with
  | zero => intro m a v x _; rfl
  | succ n ih =>
      intro m a v x hx
      have hxa : x ≠ a := by omega
      have : writeLE m a (n + 1) v x = writeLE (writeByte m a v) (a + 1) n (v / 256) x := rfl
      rw [this, ih (writeByte m a v) (a + 1) (v / 256) x (by omega),
        writeByte_apply_ne m a v x hxa]

theorem readLE_congr (n : Nat) : ∀ (m₁ m₂ : Mem) (a : Nat),
    (∀ x, a ≤ x → x < a + n → m₁ x = m₂ x) → readLE m₁ a n = readLE m₂ a n := by
  induction n with
  | zero => intro _ _ _ _; rfl
  | succ n ih =>
      intro m₁ m₂ a h
      show m₁ a % 256 + 256 * readLE m₁ (a + 1) n =
        m₂ a % 256 + 256 * readLE m₂ (a + 1) n
      rw [h a (Nat.le_refl a) (by omega), ih m₁ m₂ (a + 1) (fun x hx hx' => h x (by omega) (by omega))]

theorem mod_mul_aux (v B : Nat) (hB : 0 < B) :
    v % 256 + 256 * (v / 256 % B) = v % (256 * B) := by
  have h1 : 256 * (v / 256) + v % 256 = v := Nat.div_add_mod v 256
  have h2 : B * (v / 256 / B) + v / 256 % B = v / 256 := Nat.div_add_mod (v / 256) B
  have hr2 : v / 256 % B < B := Nat.mod_lt _ hB
  have hr1 : v % 256 < 256 := Nat.mod_lt _ (by omega)
  have hv : v = 256 * B * (v / 256 / B) + (256 * (v / 256 % B) + v % 256) := by
    calc v = 256 * (v / 256) + v % 256 := h1.symm
    _ = 256 * (B * (v / 256 / B) + v / 256 % B) + v % 256 := by rw [h2]
    _ = 256 * B * (v / 256 / B) + (256 * (v / 256 % B) + v % 256) := by ring
  calc v % 256 + 256 * (v / 256 % B) = 256 * (v / 256 % B) + v % 256 := by ring
  _ = (256 * B * (v / 256 / B) + (256 * (v / 256 % B) + v % 256)) % (256 * B) := by
        rw [Nat.mul_add_mod]
        exact (Nat.mod_eq_of_lt (by omega)).symm
  _ = v % (256 * B) := by rw [← hv]

/-- Reading back `n` little-endian bytes just written yields `v` mod `256 ^ n`. -/
theorem readLE_writeLE (n : Nat) : ∀ (m : Mem) (a v : Nat),
    readLE (writeLE m a n v) a n = v % 256 ^ n := by
  induction n with
  | zero => intro m a v; simp [readLE, Nat.mod_one]
  | succ n ih =>
      intro m a v
      show (writeLE (writeByte m a v) (a + 1) n (v / 256)) a % 256 +
          256 * readLE (writeLE (writeByte m a v) (a + 1) n (v / 256)) (a + 1) n =
          v % 256 ^ (n + 1)
      rw [writeLE_apply_out n (writeByte m a v) (a + 1) (v / 256) a (Or.inl (by omega)), ih]
      show (if a = a then v % 256 else m a) % 256 + 256 * (v / 256 % 256 ^ n) = v % 256 ^ (n + 1)
      rw [if_pos rfl, Nat.mod_mod_of_dvd v dvd_rfl,
        mod_mul_aux v (256 ^ n) (Nat.pos_pow_of_pos n (by omega)), pow_succ, mul_comm (256 ^ n) 256]

theorem readLE_writeLE_disjoint (n : Nat) (m : Mem) (a k b v : Nat)
    (h : a + n ≤ b ∨ b + k ≤ a) : readLE (writeLE m b k v) a n = readLE m a n := by
  apply readLE_congr
  intro x hx hx'
  exact writeLE_apply_out k m b v x (by omega)

/-!
## IEEE-754 binary64, as the Go code manipulates it

A Go `float64` is represented by its 64 raw bits.  The module's code touches
floats only through `math.IsNaN`, the conversion `uint64(v)` (numeric
truncation toward zero, in `setFloat64`) and `float64(u)` (round to nearest
even, in `getFloat64`), so those are the operations modelled on bits.
-/

def f64Sign (bits : Nat) : Nat := bits / 2 ^ 63 % 2

def f64Exp (bits : Nat) : Nat := bits / 2 ^ 52 % 2 ^ 11

def f64Frac (bits : Nat) : Nat := bits % 2 ^ 52

/-- `math.IsNaN`: exponent all ones with a nonzero fraction. -/
def f64IsNaN (bits : Nat) : Bool := f64Exp bits = 2047 && f64Frac bits != 0

def f64IsFinite (bits : Nat) : Bool := f64Exp bits != 2047

/-- Go's `uint64(v)` conversion on a `float64` given by its bits: truncation
toward zero.  A finite nonnegative binary64 is `M * 2 ^ (E - 1075)` with
`M = 2 ^ 52 + frac` for a normal (`E ≥ 1`) and `M = frac`, exponent
`1 - 1075`, for a subnormal; truncating is shifting `M` by that exponent.
The Go spec leaves NaN, negative and out-of-range sources
implementation-defined; the model yields 0 / wraps for those (never relied
on below). -/
def goF64ToUInt64 (bits : Nat) : Nat :=
  if f64IsFinite bits = false ∨ f64Sign bits = 1 then 0
  else
    let M := if f64Exp bits = 0 then f64Frac bits else 2 ^ 52 + f64Frac bits
    if 1075 ≤ f64Exp bits then M * 2 ^ (f64Exp bits - 1075) % 2 ^ 64
    else M / 2 ^ (1075 - max (f64Exp bits) 1)

/-- Binary length of `n` (position of its highest set bit, plus one), with
structural fuel so the kernel can evaluate it; 64 bits of fuel covers every
`uint64`. -/
def bitLenAux : Nat → Nat → Nat
  | 0, _ => 0
  | fuel + 1, n => if n = 0 then 0 else bitLenAux fuel (n / 2) + 1

def bitLen (n : Nat) : Nat := bitLenAux 64 n

/-- Go's `float64(u)` conversion on a `uint64`: round to nearest, ties to
even.  Every `u < 2 ^ 64` stays in binary64's finite range. -/
def natToF64bits (u : Nat) : Nat :=
  if u = 0 then 0
  else
    let k := bitLen u - 1
    if k ≤ 52 then (1023 + k) * 2 ^ 52 + (u * 2 ^ (52 - k) - 2 ^ 52)
    else
      let shift := k - 52
      let q := u / 2 ^ shift
      let r := u % 2 ^ shift
      let half := 2 ^ (shift - 1)
      let q' := if half < r || (r = half && q % 2 = 1) then q + 1 else q
      if q' = 2 ^ 53 then (1023 + k + 1) * 2 ^ 52
      else (1023 + k) * 2 ^ 52 + (q' - 2 ^ 52)

/-!
## Data model

`Datum` is the embedding of the Go `interface\x7b\x7d` values that flow through
this module: `nil`, the `struct\x7b\x7d` markers (`nan` and `undefined` are both
the empty struct and hence Go-equal), booleans, float64 (by raw bits),
strings, the untyped int constants stored for `jsValueMemory`/`jsVsGo`,
`jsObject` (string-keyed map), `jsArray`, `jsInt8Array`, Go funcs, and a
boxed `Value` struct.  Derived decidable equality agrees with Go's `==` on
every comparison the module performs (the module only ever compares against
the `undefined`/`null` sentinels, whose data are comparable). -/
inductive Datum where
  | goNil : Datum
  | emptyStruct : Datum
  | boolean : Bool → Datum
  | f64 : Nat → Datum
  | str : String → Datum
  | intConst : Nat → Datum
  | fn : String → Datum
  | obj : List (String × Datum) → Datum
  | arr : List Datum → Datum
  | int8arr : List Int → Datum
  | valueV : Nat → Datum → Datum

mutual

/-- Go `==` on the data above (boolean equality).  Go would panic when both
sides hold the same non-comparable dynamic type (map/slice); the module only
ever compares against the `undefined`/`null` sentinels, whose data are the
comparable `struct\x7b\x7d` and `nil`, so structural equality agrees with Go
everywhere `==` is reachable. -/
def Datum.beq : Datum → Datum → Bool
  | .goNil, .goNil => true
  | .emptyStruct, .emptyStruct => true
  | .boolean a, .boolean b => a == b
  | .f64 a, .f64 b => a == b
  | .str a, .str b => a == b
  | .intConst a, .intConst b => a == b
  | .fn a, .fn b => a == b
  | .obj a, .obj b => Datum.beqFields a b
  | .arr a, .arr b => Datum.beqElems a b
  | .int8arr a, .int8arr b => a == b
  | .valueV r a, .valueV s b => r == s && Datum.beq a b
  | _, _ => false

def Datum.beqFields : List (String × Datum) → List (String × Datum) → Bool
  | [], [] => true
  | (k₁, v₁) :: t₁, (k₂, v₂) :: t₂ => k₁ == k₂ && Datum.beq v₁ v₂ && Datum.beqFields t₁ t₂
  | _, _ => false

def Datum.beqElems : List Datum → List Datum → Bool
  | [], [] => true
  | a :: t₁, b :: t₂ => Datum.beq a b && Datum.beqElems t₁ t₂
  | _, _ => false

end

/-- `Value` pairs a handle (`ref`, a `uint32`-ranged index) with its datum. -/
structure Value where
  ref : Nat
  v : Datum

/-- Go `==` on two `Value` structs: fieldwise. -/
def Value.beq (a b : Value) : Bool := a.ref == b.ref && Datum.beq a.v b.v

/-- Box a `Value` back into an `interface\x7b\x7d`. -/
def boxValue (val : Value) : Datum := .valueV val.ref val.v

/-- A `Go` instance's own fields (besides the shared map): `valueIndex`. -/
structure Go where
  valueIndex : Nat
deriving DecidableEq

/-- The package-level `defaultValues` map object.  `NewGo` stores this map by
reference into every instance (`values: defaultValues` copies the map
*reference*, Go maps being reference types), so its contents are shared,
process-wide state; each instance keeps only its own `valueIndex`. -/
structure World where
  values : List (Nat × Value)

/-- Go map read `m[k]`: the zero `Value` (`ref 0`, `nil` datum) on a missing
key. -/
def mapGet (m : List (Nat × Value)) (k : Nat) : Value :=
  match m.lookup k with
  | some v => v
  | none => ⟨0, .goNil⟩

/-- Go map write `m[k] = v`: replace if the key is present, else add. -/
def mapSet (m : List (Nat × Value)) (k : Nat) (v : Value) : List (Nat × Value) :=
  if (m.lookup k).isSome then
    m.map (fun p => if p.1 = k then (k, v) else p)
  else m ++ [(k, v)]

def jsGlobal : Datum := .obj [("Array", .arr []), ("Int8Array", .int8arr [])]

/-- The package-level `defaultValues` initializer: the 8 reserved handles.
`nan` and `undefined` are both `struct\x7b\x7d`; `jsValueMemory`/`jsVsGo` are
stored as their own untyped int constants. -/
def defaultValues : List (Nat × Value) :=
  [(0, ⟨0, .emptyStruct⟩), (1, ⟨1, .emptyStruct⟩), (2, ⟨2, .goNil⟩),
   (3, ⟨3, .boolean true⟩), (4, ⟨4, .boolean false⟩), (5, ⟨5, jsGlobal⟩),
   (6, ⟨6, .intConst 6⟩), (7, ⟨7, .intConst 7⟩)]

/-- Initial state of the package: `defaultValues` as initialized. -/
def initialWorld : World := ⟨defaultValues⟩

/-- `NewGo`: a fresh instance aliasing the package map, with
`valueIndex = len(defaultValues)` at creation time. -/
def NewGo (w : World) : World × Go := (w, ⟨w.values.length⟩)

theorem lookup_map_replace (l : List (Nat × Value)) (k h : Nat) (v : Value) (hne : h ≠ k) :
    (l.map fun p => if p.1 = k then (k, v) else p).lookup h = l.lookup h := by
  induction l with
  | nil => rfl
  | cons p t ih =>
      obtain ⟨pk, pv⟩ := p
      by_cases hpk : pk = k
      · subst hpk
        have hbe : (h == pk) = false := by
          simp only [beq_eq_false_iff_ne, ne_eq]
          exact hne
        simp [List.lookup_cons, hbe, ih]
      · simp only [List.map_cons, if_neg hpk, List.lookup_cons]
        cases hhp : h == pk with
        | true => rfl
        | false => exact ih

theorem lookup_append_single (l : List (Nat × Value)) (k p : Nat) (v : Value) :
    (l ++ [(p, v)]).lookup k =
      match l.lookup k with
      | some x => some x
      | none => if k = p then some v else none := by
  induction l with
  | nil =>
      simp only [List.nil_append, List.lookup_cons, List.lookup_nil]
      by_cases hkp : k = p
      · simp [hkp]
      · have : (k == p) = false := by simp [hkp]
        rw [this]
        simp [hkp]
  | cons q t ih =>
      obtain ⟨qk, qv⟩ := q
      simp only [List.cons_append, List.lookup_cons]
      cases hq : k == qk with
      | true => rfl
      | false => exact ih

theorem lookup_mapSet_ne (l : List (Nat × Value)) (k h : Nat) (v : Value) (hne : h ≠ k) :
    (mapSet l k v).lookup h = l.lookup h := by
  unfold mapSet
  split
  · exact lookup_map_replace l k h v hne
  · rw [lookup_append_single l h k v]
    cases hl : l.lookup h with
    | some x => rfl
    | none => simp [hne]

theorem lookup_mapSet_self (l : List (Nat × Value)) (k : Nat) (v : Value) :
    (mapSet l k v).lookup k = some v := by
  unfold mapSet
  split
  case isTrue hsome =>
    induction l with
    | nil => simp at hsome
    | cons p t ih =>
        obtain ⟨pk, pv⟩ := p
        by_cases hpk : pk = k
        · subst hpk
          simp [List.lookup_cons]
        · simp only [List.map_cons, if_neg hpk, List.lookup_cons]
          have hk : (k == pk) = false := by
            simp only [beq_eq_false_iff_ne, ne_eq]
            exact fun hh => hpk hh.symm
          rw [hk]
          apply ih
          rw [List.lookup_cons, hk] at hsome
          exact hsome
  case isFalse =>
    rw [lookup_append_single]
    cases hl : l.lookup k with
    | some x => simp_all
    | none => simp

theorem isSome_lookup_mapSet (l : List (Nat × Value)) (k p : Nat) (v : Value)
    (h : ((mapSet l p v).lookup k).isSome) : k = p ∨ (l.lookup k).isSome := by
  by_cases hkp : k = p
  · exact Or.inl hkp
  · rw [lookup_mapSet_ne l p k v hkp] at h
    exact Or.inr h

theorem length_mapSet_none (l : List (Nat × Value)) (k : Nat) (v : Value)
    (h : l.lookup k = none) : (mapSet l k v).length = l.length + 1 := by
  unfold mapSet
  rw [h]
  simp

theorem lookup_isSome_mem_keys (l : List (Nat × Value)) (k : Nat)
    (h : (l.lookup k).isSome) : k ∈ l.map Prod.fst := by
  induction l with
  | nil => simp at h
  | cons p t ih =>
      obtain ⟨pk, pv⟩ := p
      rw [List.lookup_cons] at h
      cases hk : k == pk with
      | true =>
          have : k = pk := by simpa using hk
          simp [this]
      | false =>
          rw [hk] at h
          simp only [List.map_cons, List.mem_cons]
          exact Or.inr (ih h)

theorem defaultValues_lookup_lt (k : Nat) (h : (defaultValues.lookup k).isSome) : k < 8 := by
  have hmem := lookup_isSome_mem_keys defaultValues k h
  simp only [defaultValues, List.map_cons, List.map_nil, List.mem_cons,
    List.not_mem_nil, or_false] at hmem
  omega

/-!
## Value codec (`setXxx`/`getXxx`, `loadValue`, `loadSliceOfValues`,
`loadString`, `storeValue`)
-/

def setUInt8 (m : Mem) (addr v : Nat) : Mem := writeLE m addr 1 (v % 2 ^ 8)

def setUInt32 (m : Mem) (addr v : Nat) : Mem := writeLE m addr 4 (v % 2 ^ 32)

def setUInt64 (m : Mem) (addr v : Nat) : Mem := writeLE m addr 8 (v % 2 ^ 64)

/-- `setFloat64` as written in the source: `g.setUInt64(ba, addr, uint64(v))`
— the *numeric conversion* of the float, not `math.Float64bits`. -/
def setFloat64 (m : Mem) (addr bits : Nat) : Mem := setUInt64 m addr (goF64ToUInt64 bits)

def getUInt32 (m : Mem) (addr : Nat) : Nat := readLE m addr 4

def getUInt64 (m : Mem) (addr : Nat) : Nat := readLE m addr 8

/-- `getFloat64` as written in the source: `float64(g.getUInt64(ba, addr))` —
the numeric conversion of the integer, not `math.Float64frombits`. -/
def getFloat64 (m : Mem) (addr : Nat) : Nat := natToF64bits (getUInt64 m addr)

def getRef (m : Mem) (addr : Nat) : Nat := getUInt32 m addr

/-- `loadValue`: read a 4-byte ref; if it is numerically greater than
`len(g.values)` return the `undefined` entry, else the plain map read. -/
def loadValue (w : World) (m : Mem) (addr : Nat) : Value :=
  let r := getRef m addr
  if w.values.length < r then mapGet w.values 1
  else mapGet w.values r

/-- `loadSliceOfValues`: read an 8-byte base address and 8-byte length, then
each 4-byte ref, each resolved by a *direct* map read (no bounds fallback). -/
def loadSliceOfValues (w : World) (m : Mem) (addr : Nat) : List Value :=
  let arrayAddr := getUInt64 m addr
  let length := getUInt64 m (addr + 8)
  (List.range length).map fun i => mapGet w.values (getRef m (arrayAddr + i * 4))

/-- Byte list → Go string (`string(buf)` keeps the raw bytes). -/
def bytesToStr (bs : List Nat) : String := String.mk (bs.map fun b => Char.ofNat (b % 256))

/-- `loadString`: read an 8-byte offset and 8-byte length at `sp`, then that
many bytes. -/
def loadString (m : Mem) (sp : Nat) : String :=
  let offset := getUInt64 m sp
  let length := getUInt64 m (sp + 8)
  bytesToStr ((List.range length).map fun i => m (offset + i) % 256)

def nanHead : Nat := 0x7FF80000

/-- The type-flag switch of `storeValue`: `reflect.TypeOf(v).Kind()` on the
*original argument* — `1` for a string, `3` for a func, `0` for every other
kind (struct, map, slice, ...; in particular a boxed `Value` struct is kind
`Struct`, flag `0`, whatever datum it wraps). -/
def typeFlag : Datum → Nat
  | .str _ => 1
  | .fn _ => 3
  | _ => 0

/-- `storeValue`: encode `v` into the 8-byte slot at `addr`, allocating a
fresh handle (at `valueIndex`, which then increments) exactly in the default
branch.  The finite-float case has **no `return`** in the source: after
`setFloat64` control falls out of the type switch to the common tail, which
writes the tag word `nanHead ||| tf` at `addr + 4` and then `setRef(addr, r)`
with `r` still its zero value 0, overwriting the just-written slot. -/
def storeValue (g : Go) (w : World) (m : Mem) (addr : Nat) (v : Datum) :
    Go × World × Mem :=
  match v with
  | .goNil =>
      (g, w, setUInt32 (setUInt32 m (addr + 4) nanHead) addr 2)
  | .f64 bits =>
      if f64IsNaN bits then
        (g, w, setUInt32 (setUInt32 m (addr + 4) nanHead) addr 0)
      else
        (g, w, setUInt32 (setUInt32 (setFloat64 m addr bits) (addr + 4)
            (nanHead ||| typeFlag (Datum.f64 bits))) addr 0)
  | .boolean b =>
      (g, w, setUInt32 (setUInt32 m (addr + 4) nanHead) addr (if b then 3 else 4))
  | .valueV r d =>
      if Value.beq ⟨r, d⟩ (mapGet w.values 1) then
        (g, w, setUInt32 m addr 0)
      else if Value.beq ⟨r, d⟩ (mapGet w.values 2) then
        (g, w, setUInt32 m addr 1)
      else
        (g, w, setUInt32 (setUInt32 m (addr + 4) (nanHead ||| typeFlag v)) addr r)
  | _ =>
      let r := g.valueIndex
      let w' : World := ⟨mapSet w.values r ⟨r, v⟩⟩
      (⟨g.valueIndex + 1⟩, w',
        setUInt32 (setUInt32 m (addr + 4) (nanHead ||| typeFlag v)) addr r)

/-!
## Capability adapters and host functions
-/

/-- Which dynamic types satisfy `v.(getter)`: only `jsObject` has a
`Get(string)` method (`jsArray`/`jsInt8Array` have none). -/
def isGetter : Datum → Bool
  | .obj _ => true
  | _ => false

/-- Which dynamic types satisfy `v.(newer)`: `jsArray` and `jsInt8Array`. -/
def isNewer : Datum → Bool
  | .arr _ => true
  | .int8arr _ => true
  | _ => false

/-- `jsObject.Get`: plain map read, `nil` on a missing key. -/
def jsGet (d : Datum) (k : String) : Datum :=
  match d with
  | .obj fields => (fields.lookup k).getD .goNil
  | _ => .goNil

/-- The `New` methods.  `jsArray.New` returns `jsArray(args)` — the argument
`interface\x7b\x7d` values, which are always boxed `Value` structs here.
`jsInt8Array.New` type-asserts each argument with `v.(int8)`, which panics on
a `Value` struct, hence `none` (panic) for any non-empty argument list. -/
def jsNew (d : Datum) (args : List Value) : Option Datum :=
  match d with
  | .arr _ => some (.arr (args.map boxValue))
  | .int8arr _ => if args.isEmpty then some (.int8arr []) else none
  | _ => none

/-- `newJSError`: `jsObject\x7b"message": err.Error()\x7d`. -/
def newJSError (msg : String) : Datum := .obj [("message", .str msg)]

/-- The message of `exportValueNew`'s error path.  The source formats
`"value %v of type %q is not a newer"` with the decoded `Value` and its
reflected type (always `modules.Value`); the exact `%v` rendering of the
nested struct is immaterial to every property below and is kept coarse. -/
def notANewerMsg (val : Value) : String :=
  "value " ++ toString val.ref ++ " of type \"modules.Value\" is not a newer"

/-- How a host-function invocation ends: normal return, `proc.Terminate()`,
or a Go panic. -/
inductive Outcome where
  | normal : Outcome
  | terminated : Outcome
  | panicked : Outcome
deriving DecidableEq

/-- `syscall/js.valueNew`: target at `sp+8`, args at `sp+16`, result slot at
`sp+40`, success flag byte at `sp+48`. -/
def exportValueNew (g : Go) (w : World) (m : Mem) (sp : Nat) :
    Go × World × Mem × Outcome :=
  let v := loadValue w m (sp + 8)
  let args := loadSliceOfValues w m (sp + 16)
  if isNewer v.v then
    match jsNew v.v args with
    | some res =>
        let (g', w', m') := storeValue g w m (sp + 40) res
        (g', w', setUInt8 m' (sp + 48) 1, .normal)
    | none => (g, w, m, .panicked)
  else
    let (g', w', m') := storeValue g w m (sp + 40) (newJSError (notANewerMsg v))
    (g', w', setUInt8 m' (sp + 48) 0, .normal)

/-- `syscall/js.valueGet`: target at `sp+8`, name at `sp+16`, result at
`sp+32`.  A target without the getter capability logs and terminates the
process, writing nothing. -/
def exportValueGet (g : Go) (w : World) (m : Mem) (sp : Nat) :
    Go × World × Mem × Outcome :=
  let v := loadValue w m (sp + 8)
  let s := loadString m (sp + 16)
  if isGetter v.v then
    let (g', w', m') := storeValue g w m (sp + 32) (jsGet v.v s)
    (g', w', m', .normal)
  else
    (g, w, m, .terminated)

/-- `syscall/js.valueCall`: target at `sp+8`, method name at `sp+16`, args at
`sp+32`.  A target without the getter capability terminates the process; on
success the reference code only logs — it dispatches nothing and writes no
result (known incompleteness). -/
def exportValueCall (g : Go) (w : World) (m : Mem) (sp : Nat) :
    Go × World × Mem × Outcome :=
  let v := loadValue w m (sp + 8)
  let _f := loadString m (sp + 16)
  if isGetter v.v then
    let _args := loadSliceOfValues w m (sp + 32)
    (g, w, m, .normal)
  else
    (g, w, m, .terminated)

/-!
## Sequences of encodes (for the session-wide invariants)
-/

/-- Run a sequence of `storeValue` calls (address/datum pairs). -/
def runStores (g : Go) (w : World) (m : Mem) : List (Nat × Datum) → Go × World × Mem
  | [] => (g, w, m)
  | (a, v) :: rest =>
      let (g', w', m') := storeValue g w m a v
      runStores g' w' m' rest

/-- The handles assigned by the new-value (default) path of `storeValue`
along a sequence, in order: a call allocates exactly when it bumps
`valueIndex`, and the handle it assigns is the old `valueIndex`. -/
def allocatedRefs (g : Go) (w : World) (m : Mem) : List (Nat × Datum) → List Nat
  | [] => []
  | (a, v) :: rest =>
      let (g', w', m') := storeValue g w m a v
      (if g'.valueIndex ≠ g.valueIndex then [g.valueIndex] else [])
        ++ allocatedRefs g' w' m' rest

/-!
## Structural lemmas about `storeValue` and sequences of encodes
-/

/-- Constructors taking `storeValue`'s default (allocating) branch. -/
def allocatesDirect : Datum → Bool
  | .goNil => false
  | .f64 _ => false
  | .boolean _ => false
  | .valueV _ _ => false
  | _ => true

/-- On a default-branch datum, `storeValue` allocates the next handle and
writes the tagged slot. -/
theorem storeValue_alloc (g : Go) (w : World) (m : Mem) (a : Nat) (v : Datum)
    (hv : allocatesDirect v = true) :
    storeValue g w m a v =
      (⟨g.valueIndex + 1⟩, ⟨mapSet w.values g.valueIndex ⟨g.valueIndex, v⟩⟩,
        setUInt32 (setUInt32 m (a + 4) (nanHead ||| typeFlag v)) a g.valueIndex) := by
  cases v <;> first
    | rfl
    | exact absurd hv (by simp [allocatesDirect])

/-- Every `storeValue` call either leaves the instance and the shared map
unchanged, or takes the default branch. -/
theorem storeValue_char (g : Go) (w : World) (m : Mem) (a : Nat) (v : Datum) :
    ((storeValue g w m a v).1 = g ∧ (storeValue g w m a v).2.1 = w) ∨
    storeValue g w m a v =
      (⟨g.valueIndex + 1⟩, ⟨mapSet w.values g.valueIndex ⟨g.valueIndex, v⟩⟩,
        setUInt32 (setUInt32 m (a + 4) (nanHead ||| typeFlag v)) a g.valueIndex) := by
  cases v with
  | goNil => exact Or.inl ⟨rfl, rfl⟩
  | f64 bits =>
      refine Or.inl ?_
      by_cases hn : f64IsNaN bits = true <;> simp [storeValue, hn]
  | boolean b => exact Or.inl ⟨rfl, rfl⟩
  | valueV r d =>
      refine Or.inl ?_
      by_cases h1 : Value.beq ⟨r, d⟩ (mapGet w.values 1) = true
      · simp [storeValue, h1]
      · by_cases h2 : Value.beq ⟨r, d⟩ (mapGet w.values 2) = true <;>
          simp [storeValue, h1, h2]
  | emptyStruct => exact Or.inr rfl
  | str s => exact Or.inr rfl
  | intConst n => exact Or.inr rfl
  | fn s => exact Or.inr rfl
  | obj l => exact Or.inr rfl
  | arr l => exact Or.inr rfl
  | int8arr l => exact Or.inr rfl

theorem storeValue_valueIndex_mono (g : Go) (w : World) (m : Mem) (a : Nat) (v : Datum) :
    g.valueIndex ≤ (storeValue g w m a v).1.valueIndex := by
  rcases storeValue_char g w m a v with ⟨h1, _⟩ | h
  · rw [h1]
  · rw [h]
    exact Nat.le_succ _

theorem storeValue_lookup_ne (g : Go) (w : World) (m : Mem) (a : Nat) (v : Datum)
    (k : Nat) (hk : k ≠ g.valueIndex) :
    (storeValue g w m a v).2.1.values.lookup k = w.values.lookup k := by
  rcases storeValue_char g w m a v with ⟨_, h2⟩ | h
  · rw [h2]
  · rw [h]
    exact lookup_mapSet_ne w.values g.valueIndex k _ hk

theorem storeValue_lookup_isSome (g : Go) (w : World) (m : Mem) (a : Nat) (v : Datum)
    (k : Nat) (hk : (w.values.lookup k).isSome) :
    ((storeValue g w m a v).2.1.values.lookup k).isSome := by
  rcases storeValue_char g w m a v with ⟨_, h2⟩ | h
  · rw [h2]; exact hk
  · rw [h]
    by_cases hi : k = g.valueIndex
    · subst hi
      rw [lookup_mapSet_self]
      rfl
    · rw [lookup_mapSet_ne w.values g.valueIndex k _ hi]
      exact hk

/-- The session invariant the initial state establishes: the shared map has
exactly `valueIndex` entries, at keys strictly below `valueIndex`. -/
def Inv (g : Go) (w : World) : Prop :=
  w.values.length = g.valueIndex ∧ ∀ k, (w.values.lookup k).isSome → k < g.valueIndex

theorem Inv_initial : Inv ⟨8⟩ initialWorld :=
  ⟨rfl, fun k h => defaultValues_lookup_lt k h⟩

theorem storeValue_Inv (g : Go) (w : World) (m : Mem) (a : Nat) (v : Datum)
    (hinv : Inv g w) : Inv (storeValue g w m a v).1 (storeValue g w m a v).2.1 := by
  obtain ⟨hlen, hkeys⟩ := hinv
  rcases storeValue_char g w m a v with ⟨h1, h2⟩ | h
  · rw [h1, h2]
    exact ⟨hlen, hkeys⟩
  · rw [h]
    have hfresh : w.values.lookup g.valueIndex = none := by
      cases hl : w.values.lookup g.valueIndex with
      | none => rfl
      | some x =>
          have := hkeys g.valueIndex (by rw [hl]; rfl)
          omega
    constructor
    · show (mapSet w.values g.valueIndex ⟨g.valueIndex, v⟩).length = g.valueIndex + 1
      rw [length_mapSet_none w.values g.valueIndex _ hfresh, hlen]
    · intro k hk
      replace hk : ((mapSet w.values g.valueIndex ⟨g.valueIndex, v⟩).lookup k).isSome := hk
      show k < g.valueIndex + 1
      rcases isSome_lookup_mapSet w.values k g.valueIndex _ hk with hke | hks
      · omega
      · have := hkeys k hks
        omega

theorem runStores_Inv (ops : List (Nat × Datum)) : ∀ (g : Go) (w : World) (m : Mem),
    Inv g w → Inv (runStores g w m ops).1 (runStores g w m ops).2.1 := by
  induction ops with
  | nil => intro g w m h; exact h
  | cons op rest ih =>
      intro g w m h
      obtain ⟨a, v⟩ := op
      show Inv (runStores (storeValue g w m a v).1 (storeValue g w m a v).2.1
          (storeValue g w m a v).2.2 rest).1 _
      exact ih _ _ _ (storeValue_Inv g w m a v h)

theorem runStores_valueIndex_mono (ops : List (Nat × Datum)) :
    ∀ (g : Go) (w : World) (m : Mem),
    g.valueIndex ≤ (runStores g w m ops).1.valueIndex := by
  induction ops with
  | nil => intro g w m; exact Nat.le_refl _
  | cons op rest ih =>
      intro g w m
      obtain ⟨a, v⟩ := op
      calc g.valueIndex ≤ (storeValue g w m a v).1.valueIndex :=
            storeValue_valueIndex_mono g w m a v
      _ ≤ _ := ih _ _ _

theorem runStores_lookup_low (ops : List (Nat × Datum)) :
    ∀ (g : Go) (w : World) (m : Mem) (h : Nat), h < g.valueIndex →
    (runStores g w m ops).2.1.values.lookup h = w.values.lookup h := by
  induction ops with
  | nil => intro g w m h _; rfl
  | cons op rest ih =>
      intro g w m h hh
      obtain ⟨a, v⟩ := op
      show (runStores (storeValue g w m a v).1 (storeValue g w m a v).2.1
          (storeValue g w m a v).2.2 rest).2.1.values.lookup h = _
      rw [ih _ _ _ h (Nat.lt_of_lt_of_le hh (storeValue_valueIndex_mono g w m a v))]
      exact storeValue_lookup_ne g w m a v h (by omega)

theorem runStores_lookup_isSome (ops : List (Nat × Datum)) :
    ∀ (g : Go) (w : World) (m : Mem) (k : Nat), (w.values.lookup k).isSome →
    ((runStores g w m ops).2.1.values.lookup k).isSome := by
  induction ops with
  | nil => intro g w m k h; exact h
  | cons op rest ih =>
      intro g w m k h
      obtain ⟨a, v⟩ := op
      exact ih _ _ _ k (storeValue_lookup_isSome g w m a v k h)

theorem runStores_cons (g : Go) (w : World) (m : Mem) (a : Nat) (v : Datum)
    (rest : List (Nat × Datum)) :
    runStores g w m ((a, v) :: rest) =
      runStores (storeValue g w m a v).1 (storeValue g w m a v).2.1
        (storeValue g w m a v).2.2 rest := by
  rcases hsv : storeValue g w m a v with ⟨g', w', m'⟩
  simp [runStores, hsv]

theorem allocatedRefs_cons (g : Go) (w : World) (m : Mem) (a : Nat) (v : Datum)
    (rest : List (Nat × Datum)) :
    allocatedRefs g w m ((a, v) :: rest) =
      (if (storeValue g w m a v).1.valueIndex ≠ g.valueIndex then [g.valueIndex] else [])
        ++ allocatedRefs (storeValue g w m a v).1 (storeValue g w m a v).2.1
            (storeValue g w m a v).2.2 rest := by
  rcases hsv : storeValue g w m a v with ⟨g', w', m'⟩
  simp [allocatedRefs, hsv]

theorem allocatedRefs_bounds (ops : List (Nat × Datum)) :
    ∀ (g : Go) (w : World) (m : Mem),
    List.Pairwise (· < ·) (allocatedRefs g w m ops) ∧
    ∀ x ∈ allocatedRefs g w m ops, g.valueIndex ≤ x := by
  induction ops with
  | nil =>
      intro g w m
      exact ⟨List.Pairwise.nil, fun x hx => absurd hx (List.not_mem_nil x)⟩
  | cons op rest ih =>
      intro g w m
      obtain ⟨a, v⟩ := op
      obtain ⟨hpw, hbd⟩ := ih (storeValue g w m a v).1 (storeValue g w m a v).2.1
        (storeValue g w m a v).2.2
      rw [allocatedRefs_cons]
      rcases storeValue_char g w m a v with ⟨h1, _⟩ | h
      · have h1' : (storeValue g w m a v).1.valueIndex = g.valueIndex := by rw [h1]
        rw [if_neg (by rw [h1']; exact fun hc => hc rfl), List.nil_append]
        refine ⟨hpw, fun x hx => ?_⟩
        have := hbd x hx
        omega
      · have hidx : (storeValue g w m a v).1.valueIndex = g.valueIndex + 1 := by rw [h]
        rw [hidx]
        have hup : ∀ x ∈ allocatedRefs (storeValue g w m a v).1 (storeValue g w m a v).2.1
            (storeValue g w m a v).2.2 rest, g.valueIndex + 1 ≤ x := by
          intro x hx
          have := hbd x hx
          rw [hidx] at this
          exact this
        simp only [ne_eq, Nat.succ_ne_self, not_false_eq_true, if_true,
          List.singleton_append]
        constructor
        · exact List.Pairwise.cons (fun x hx => by have := hup x hx; omega) hpw
        · intro x hx
          rcases List.mem_cons.mp hx with hx | hx
          · omega
          · have := hup x hx
            omega

theorem allocatedRefs_length (ops : List (Nat × Datum)) :
    ∀ (g : Go) (w : World) (m : Mem),
    (runStores g w m ops).1.valueIndex =
      g.valueIndex + (allocatedRefs g w m ops).length := by
  induction ops with
  | nil => intro g w m; rfl
  | cons op rest ih =>
      intro g w m
      obtain ⟨a, v⟩ := op
      rw [runStores_cons, allocatedRefs_cons, ih]
      rcases storeValue_char g w m a v with ⟨h1, _⟩ | h
      · rw [h1]
        simp
      · have hidx : (storeValue g w m a v).1.valueIndex = g.valueIndex + 1 := by rw [h]
        rw [hidx]
        simp only [ne_eq, Nat.succ_ne_self, not_false_eq_true, if_true,
          List.singleton_append, List.length_cons]
        omega

/-!
## Reading back slot writes
-/

theorem readLE_setUInt32_self (m : Mem) (a x : Nat) :
    readLE (setUInt32 m a x) a 4 = x % 2 ^ 32 := by
  unfold setUInt32
  rw [readLE_writeLE]
  have h : (256 : Nat) ^ 4 = 2 ^ 32 := by norm_num
  rw [h, Nat.mod_mod_of_dvd x dvd_rfl]

/-- The tag word at `addr + 4` after `storeValue`'s two-word write pattern. -/
theorem readTag (m : Mem) (addr p t : Nat) (ht : t < 2 ^ 32) :
    readLE (setUInt32 (setUInt32 m (addr + 4) t) addr p) (addr + 4) 4 = t := by
  unfold setUInt32
  rw [readLE_writeLE_disjoint 4 _ (addr + 4) 4 addr _ (Or.inr (Nat.le_refl _)),
    readLE_writeLE]
  have h : (256 : Nat) ^ 4 = 2 ^ 32 := by norm_num
  rw [h, Nat.mod_mod_of_dvd t dvd_rfl, Nat.mod_eq_of_lt ht]

/-- The payload word at `addr` after `storeValue`'s two-word write pattern. -/
theorem readPayload (m : Mem) (addr p t : Nat) :
    readLE (setUInt32 (setUInt32 m (addr + 4) t) addr p) addr 4 = p % 2 ^ 32 :=
  readLE_setUInt32_self _ addr p

/-!
## The claims
-/

/-- A memory of all-zero bytes. -/
def zeroMem : Mem := fun _ => 0

/-- **C1** (code bug).  The spec says a finite double's slot holds its raw
IEEE-754 bit pattern and decodes back bit-for-bit.  The fast path indeed
allocates no handle, but the slot never ends up holding the bit pattern:
`setFloat64` performs `setUInt64(addr, uint64(v))` — the numeric truncation
of the float (integer 1 for 1.5), not `math.Float64bits` — and, the
finite-float case having no `return`, the switch tail then overwrites the
slot with payload `r = 0` and tag word `nanHead ||| 0`.  Encoding 1.5 (bits
0x3FF8000000000000) therefore leaves the slot as 0x7FF8000000000000 — the
NaN-sentinel slot — and `getFloat64` (`float64(getUInt64(addr))`) decodes it
to a huge double, not back to 1.5. -/
theorem storeValue_finite_float_slot_is_nan_sentinel :
    f64IsFinite 0x3FF8000000000000 = true ∧
    (storeValue ⟨8⟩ initialWorld zeroMem 0 (Datum.f64 0x3FF8000000000000)).1 = ⟨8⟩ ∧
    (storeValue ⟨8⟩ initialWorld zeroMem 0 (Datum.f64 0x3FF8000000000000)).2.1
      = initialWorld ∧
    readLE (setFloat64 zeroMem 0 0x3FF8000000000000) 0 8 = 1 ∧
    readLE (storeValue ⟨8⟩ initialWorld zeroMem 0 (Datum.f64 0x3FF8000000000000)).2.2 0 8
      = 0x7FF8000000000000 ∧
    (0x7FF8000000000000 : Nat) ≠ 0x3FF8000000000000 ∧
    getFloat64 (storeValue ⟨8⟩ initialWorld zeroMem 0 (Datum.f64 0x3FF8000000000000)).2.2 0
      ≠ 0x3FF8000000000000 :=
  ⟨by decide, rfl, rfl, by decide, by decide, by decide, by decide⟩

/-- Guest memory holding the 4-byte handle 8 at address 0. -/
def memHandle8 : Mem := fun x => if x = 0 then 8 else 0

/-- Guest memory holding the 4-byte handle 9 at address 0. -/
def memHandle9 : Mem := fun x => if x = 0 then 9 else 0

/-- **C2** (counterexample).  With the 8 reserved entries only (table size 8),
the handle 8 is already beyond the highest assigned index (7), yet `loadValue`
does not return the `undefined` sentinel: the guard is `r > len(values)`, so
`r = 8` slips through to the plain map read, which yields Go's zero `Value`
(`ref 0`, `nil` datum), not `values[1]`. -/
theorem loadValue_at_exact_table_size_returns_zero_value :
    readLE memHandle8 0 4 = 8 ∧
    initialWorld.values.length = 8 ∧
    loadValue initialWorld memHandle8 0 = ⟨0, Datum.goNil⟩ ∧
    mapGet initialWorld.values 1 = ⟨1, Datum.emptyStruct⟩ ∧
    loadValue initialWorld memHandle8 0 ≠ mapGet initialWorld.values 1 := by
  refine ⟨by decide, by decide, rfl, rfl, ?_⟩
  intro h
  have h0 : (loadValue initialWorld memHandle8 0).ref = 0 := rfl
  have h1 : (mapGet initialWorld.values 1).ref = 1 := rfl
  rw [h, h1] at h0
  exact absurd h0 (by decide)

theorem loadValue_eq (w : World) (m : Mem) (addr : Nat) :
    loadValue w m addr =
      if w.values.length < getRef m addr then mapGet w.values 1
      else mapGet w.values (getRef m addr) := rfl

/-- **C2** (amended).  `loadValue` never fails: for a handle *strictly*
greater than the table's size it returns the `undefined` entry
(`values[1]`); for a handle exactly equal to the size (one past the highest
assigned index, hence absent) it returns Go's zero `Value` instead. -/
theorem loadValue_boundary_spec (w : World) (m : Mem) (addr : Nat) :
    (w.values.length < getRef m addr → loadValue w m addr = mapGet w.values 1) ∧
    (getRef m addr = w.values.length → w.values.lookup (getRef m addr) = none →
      loadValue w m addr = ⟨0, Datum.goNil⟩) := by
  rw [loadValue_eq]
  constructor
  · intro h
    rw [if_pos h]
  · intro he hn
    rw [if_neg (by omega)]
    unfold mapGet
    rw [hn]

theorem loadValue_boundary_spec_witness :
    loadValue initialWorld memHandle8 0 = ⟨0, Datum.goNil⟩ ∧
    loadValue initialWorld memHandle9 0 = mapGet initialWorld.values 1 :=
  ⟨(loadValue_boundary_spec initialWorld memHandle8 0).2 rfl rfl,
   (loadValue_boundary_spec initialWorld memHandle9 0).1 (by decide)⟩

/-- The shared map after a string has been interned at handle 8. -/
def worldWithString8 : World := ⟨defaultValues ++ [(8, ⟨8, Datum.str "a"⟩)]⟩

/-- **C3** (counterexample).  Re-encoding an existing `Value` that wraps the
string "a" writes the tag word `0x7FF80000` (flag 0), not `0x7FF80001`: the
type-flag switch reflects on the *argument* — a `modules.Value` struct, kind
`Struct` — not on the wrapped datum. -/
theorem storeValue_rewrapped_string_value_flag_zero :
    readLE (storeValue ⟨9⟩ worldWithString8 zeroMem 0
        (Datum.valueV 8 (Datum.str "a"))).2.2 4 4 = 0x7FF80000 ∧
    (0x7FF80000 : Nat) ≠ 0x7FF80000 ||| 1 :=
  ⟨by decide, by decide⟩

theorem typeFlag_lt (v : Datum) : nanHead ||| typeFlag v < 2 ^ 32 := by
  have h : typeFlag v = 0 ∨ typeFlag v = 1 ∨ typeFlag v = 3 := by
    cases v <;> simp [typeFlag]
  rcases h with h | h | h <;> rw [h] <;> decide

/-- **C3** (amended).  In every `storeValue` case that writes a tag word —
i.e. everything except the finite-float fast path and the undefined/null
sentinel shorthands, which write no tag — the tag word at `destination + 4`
is `0x7FF80000 ||| typeFlag v`, where the flag is computed from the dynamic
type of the *argument itself*: 1 for a string argument, 3 for a function
argument, 0 for everything else (in particular 0 for a re-encoded `Value`,
whatever datum it wraps); flag 2 is never produced. -/
theorem storeValue_tag_word_spec (g : Go) (w : World) (m : Mem) (addr : Nat) (v : Datum)
    (hnan : ∀ bits, v = Datum.f64 bits → f64IsNaN bits = true)
    (hsent : ∀ r d, v = Datum.valueV r d →
      Value.beq ⟨r, d⟩ (mapGet w.values 1) = false ∧
      Value.beq ⟨r, d⟩ (mapGet w.values 2) = false) :
    readLE (storeValue g w m addr v).2.2 (addr + 4) 4 = nanHead ||| typeFlag v ∧
    typeFlag v ≠ 2 ∧
    (typeFlag v = 1 ↔ ∃ s, v = Datum.str s) ∧
    (typeFlag v = 3 ↔ ∃ s, v = Datum.fn s) := by
  cases v with
  | goNil =>
      refine ⟨?_, by simp [typeFlag], by simp [typeFlag], by simp [typeFlag]⟩
      exact (readTag m addr 2 nanHead (by decide)).trans (by decide)
  | f64 bits =>
      have hb := hnan bits rfl
      have hred : storeValue g w m addr (Datum.f64 bits)
          = (g, w, setUInt32 (setUInt32 m (addr + 4) nanHead) addr 0) := by
        simp [storeValue, hb]
      refine ⟨?_, by simp [typeFlag], by simp [typeFlag], by simp [typeFlag]⟩
      rw [hred]
      exact (readTag m addr 0 nanHead (by decide)).trans (by simp [typeFlag])
  | boolean b =>
      refine ⟨?_, by simp [typeFlag], by simp [typeFlag], by simp [typeFlag]⟩
      exact (readTag m addr (if b = true then 3 else 4) nanHead (by decide)).trans
        (by simp [typeFlag])
  | valueV r d =>
      obtain ⟨h1, h2⟩ := hsent r d rfl
      have hred : storeValue g w m addr (Datum.valueV r d)
          = (g, w, setUInt32 (setUInt32 m (addr + 4)
              (nanHead ||| typeFlag (Datum.valueV r d))) addr r) := by
        simp [storeValue, h1, h2]
      refine ⟨?_, by simp [typeFlag], by simp [typeFlag], by simp [typeFlag]⟩
      rw [hred]
      exact readTag m addr r _ (typeFlag_lt (Datum.valueV r d))
  | emptyStruct =>
      refine ⟨?_, by simp [typeFlag], by simp [typeFlag], by simp [typeFlag]⟩
      rw [storeValue_alloc g w m addr (Datum.emptyStruct) rfl]
      exact readTag m addr g.valueIndex _ (typeFlag_lt Datum.emptyStruct)
  | str s =>
      refine ⟨?_, by simp [typeFlag], by simp [typeFlag], by simp [typeFlag]⟩
      rw [storeValue_alloc g w m addr (Datum.str s) rfl]
      exact readTag m addr g.valueIndex _ (typeFlag_lt (Datum.str s))
  | intConst n =>
      refine ⟨?_, by simp [typeFlag], by simp [typeFlag], by simp [typeFlag]⟩
      rw [storeValue_alloc g w m addr (Datum.intConst n) rfl]
      exact readTag m addr g.valueIndex _ (typeFlag_lt (Datum.intConst n))
  | fn s =>
      refine ⟨?_, by simp [typeFlag], by simp [typeFlag], by simp [typeFlag]⟩
      rw [storeValue_alloc g w m addr (Datum.fn s) rfl]
      exact readTag m addr g.valueIndex _ (typeFlag_lt (Datum.fn s))
  | obj l =>
      refine ⟨?_, by simp [typeFlag], by simp [typeFlag], by simp [typeFlag]⟩
      rw [storeValue_alloc g w m addr (Datum.obj l) rfl]
      exact readTag m addr g.valueIndex _ (typeFlag_lt (Datum.obj l))
  | arr l =>
      refine ⟨?_, by simp [typeFlag], by simp [typeFlag], by simp [typeFlag]⟩
      rw [storeValue_alloc g w m addr (Datum.arr l) rfl]
      exact readTag m addr g.valueIndex _ (typeFlag_lt (Datum.arr l))
  | int8arr l =>
      refine ⟨?_, by simp [typeFlag], by simp [typeFlag], by simp [typeFlag]⟩
      rw [storeValue_alloc g w m addr (Datum.int8arr l) rfl]
      exact readTag m addr g.valueIndex _ (typeFlag_lt (Datum.int8arr l))

theorem storeValue_tag_word_spec_witness :
    readLE (storeValue ⟨8⟩ initialWorld zeroMem 0 (Datum.str "x")).2.2 4 4
      = nanHead ||| typeFlag (Datum.str "x") :=
  (storeValue_tag_word_spec ⟨8⟩ initialWorld zeroMem 0 (Datum.str "x")
    (fun _ h => nomatch h) (fun _ _ h => nomatch h)).1

/-- **C6** (confirmed).  When the decoded target of `get-property` or
`call-method` lacks the getter capability, the process is terminated and the
instance, shared map and guest memory are all left untouched. -/
theorem exportValueGet_exportValueCall_terminate_on_capability_mismatch
    (g : Go) (w : World) (m : Mem) (sp : Nat)
    (h : isGetter (loadValue w m (sp + 8)).v = false) :
    exportValueGet g w m sp = (g, w, m, Outcome.terminated) ∧
    exportValueCall g w m sp = (g, w, m, Outcome.terminated) := by
  constructor
  · simp [exportValueGet, h]
  · simp [exportValueCall, h]

theorem exportValueGet_exportValueCall_terminate_witness :
    exportValueGet ⟨8⟩ initialWorld zeroMem 0
      = (⟨8⟩, initialWorld, zeroMem, Outcome.terminated) ∧
    exportValueCall ⟨8⟩ initialWorld zeroMem 0
      = (⟨8⟩, initialWorld, zeroMem, Outcome.terminated) :=
  exportValueGet_exportValueCall_terminate_on_capability_mismatch
    ⟨8⟩ initialWorld zeroMem 0 rfl

/-- Guest memory describing a one-element argument list at address 0 whose
single 4-byte entry (at address 100) is the unassigned handle 42. -/
def memArgList42 : Mem := fun x =>
  if x = 0 then 100 else if x = 8 then 1 else if x = 100 then 42 else 0

/-- **C9** (counterexample).  Decoding the argument list resolves the absent
handle 42 by a *direct* map read, yielding Go's zero `Value` (`ref 0`, `nil`
datum) — while `loadValue` applied to the very same 4-byte field returns the
`undefined` sentinel.  `loadSliceOfValues` does not share single-value
lookup's fallback. -/
theorem loadSliceOfValues_unknown_handle_zero_value :
    loadSliceOfValues initialWorld memArgList42 0 = [⟨0, Datum.goNil⟩] ∧
    loadValue initialWorld memArgList42 100 = mapGet initialWorld.values 1 ∧
    mapGet initialWorld.values 1 = ⟨1, Datum.emptyStruct⟩ ∧
    ([(⟨0, Datum.goNil⟩ : Value)] : List Value) ≠ [⟨1, Datum.emptyStruct⟩] := by
  refine ⟨rfl, rfl, rfl, ?_⟩
  intro h
  simp at h

/-- **C9** (amended).  Each 4-byte handle of a decoded argument list resolves
through the raw map: to the stored value when the handle is present, and to
Go's zero `Value` (`ref 0`, `nil` datum) — not the `undefined` sentinel —
when it is absent.  It never fails either way. -/
theorem loadSliceOfValues_resolution_spec (w : World) (m : Mem) (addr i : Nat)
    (hi : i < getUInt64 m (addr + 8)) :
    (loadSliceOfValues w m addr)[i]? =
      some (mapGet w.values (getRef m (getUInt64 m addr + i * 4))) ∧
    (w.values.lookup (getRef m (getUInt64 m addr + i * 4)) = none →
      (loadSliceOfValues w m addr)[i]? = some ⟨0, Datum.goNil⟩) := by
  have hbase : (loadSliceOfValues w m addr)[i]? =
      some (mapGet w.values (getRef m (getUInt64 m addr + i * 4))) := by
    unfold loadSliceOfValues
    rw [List.getElem?_map, List.getElem?_range hi]
    rfl
  refine ⟨hbase, fun hn => ?_⟩
  rw [hbase]
  unfold mapGet
  rw [hn]

theorem loadSliceOfValues_resolution_spec_witness :
    (loadSliceOfValues initialWorld memArgList42 0)[0]? = some ⟨0, Datum.goNil⟩ :=
  (loadSliceOfValues_resolution_spec initialWorld memArgList42 0 0 (by decide)).2 rfl

/-- **C7** (confirmed).  Along any sequence of encodes in a session started
by `NewGo` on the freshly initialized package state, every reserved handle
`0..7` still looks up to exactly its initial sentinel: `storeValue` writes
the shared map only at `valueIndex`, which starts at 8 and never decreases.
-/
theorem reserved_handles_stable (m : Mem) (ops : List (Nat × Datum)) (h : Nat)
    (hh : h ≤ 7) :
    ((runStores (NewGo initialWorld).2 (NewGo initialWorld).1 m ops).2.1.values.lookup h
      = defaultValues.lookup h) ∧
    mapGet (runStores (NewGo initialWorld).2 (NewGo initialWorld).1 m ops).2.1.values h
      = mapGet defaultValues h := by
  have hlow : (runStores (NewGo initialWorld).2 (NewGo initialWorld).1 m ops).2.1.values.lookup h
      = defaultValues.lookup h :=
    runStores_lookup_low ops (NewGo initialWorld).2 (NewGo initialWorld).1 m h
      (by have h8 : (NewGo initialWorld).2.valueIndex = 8 := rfl; omega)
  refine ⟨hlow, ?_⟩
  unfold mapGet
  rw [hlow]

theorem reserved_handles_stable_witness :
    (runStores (NewGo initialWorld).2 (NewGo initialWorld).1 zeroMem
        [(0, Datum.str "x")]).2.1.values.lookup 5 = defaultValues.lookup 5 :=
  (reserved_handles_stable zeroMem [(0, Datum.str "x")] 5 (by decide)).1

/-- **C8** (confirmed).  In any session started by `NewGo` on the freshly
initialized package state, the handles assigned by `storeValue`'s new-value
path are strictly increasing, all `≥ 8` (so never a reserved handle and
never a collision with an earlier one), and no table entry is ever removed.
-/
theorem allocation_monotonicity (m : Mem) (ops : List (Nat × Datum)) :
    List.Pairwise (· < ·)
      (allocatedRefs (NewGo initialWorld).2 (NewGo initialWorld).1 m ops) ∧
    (∀ x ∈ allocatedRefs (NewGo initialWorld).2 (NewGo initialWorld).1 m ops, 8 ≤ x) ∧
    (∀ k, ((NewGo initialWorld).1.values.lookup k).isSome →
      ((runStores (NewGo initialWorld).2 (NewGo initialWorld).1 m
          ops).2.1.values.lookup k).isSome) := by
  obtain ⟨hpw, hbd⟩ :=
    allocatedRefs_bounds ops (NewGo initialWorld).2 (NewGo initialWorld).1 m
  exact ⟨hpw, fun x hx => hbd x hx,
    fun k hk => runStores_lookup_isSome ops _ _ m k hk⟩

theorem allocation_monotonicity_witness :
    List.Pairwise (· < ·)
      (allocatedRefs (NewGo initialWorld).2 (NewGo initialWorld).1 zeroMem
        [(0, Datum.str "a"), (0, Datum.obj [])]) ∧
    ((runStores (NewGo initialWorld).2 (NewGo initialWorld).1 zeroMem
        [(0, Datum.str "a"), (0, Datum.obj [])]).2.1.values.lookup 3).isSome = true :=
  ⟨(allocation_monotonicity zeroMem [(0, Datum.str "a"), (0, Datum.obj [])]).1,
   (allocation_monotonicity zeroMem [(0, Datum.str "a"), (0, Datum.obj [])]).2.2 3 rfl⟩

/-- **C10** (confirmed).  `NewGo` installs the package-level `defaultValues`
map by reference, not as a copy: after a first instance performs `ops`
(allocating `n` handles into the shared map), a second `NewGo` hands back
the very same map, starts with `valueIndex = 8 + n` (the map's length), and
an allocation made through the second instance lands in the shared map at
`8 + n`, visible to any table read. -/
theorem NewGo_shares_package_map (m mB : Mem) (ops : List (Nat × Datum)) :
    let first := NewGo initialWorld
    let afterA := runStores first.2 first.1 m ops
    let n := (allocatedRefs first.2 first.1 m ops).length
    let second := NewGo afterA.2.1
    let afterB := storeValue second.2 second.1 mB 0 (Datum.str "x")
    second.1 = afterA.2.1 ∧
    second.2.valueIndex = 8 + n ∧
    afterA.2.1.values.length = 8 + n ∧
    afterB.1.valueIndex = 8 + n + 1 ∧
    afterB.2.1.values.lookup (8 + n) = some ⟨8 + n, Datum.str "x"⟩ ∧
    mapGet afterB.2.1.values (8 + n) = ⟨8 + n, Datum.str "x"⟩ := by
  intro first afterA n second afterB
  have hInv : Inv afterA.1 afterA.2.1 :=
    runStores_Inv ops first.2 first.1 m Inv_initial
  have hvi : afterA.1.valueIndex = 8 + n :=
    allocatedRefs_length ops first.2 first.1 m
  have hlen : afterA.2.1.values.length = 8 + n := by
    rw [hInv.1, hvi]
  have hsecond : second.2.valueIndex = 8 + n := hlen
  have halloc := storeValue_alloc second.2 second.1 mB 0 (Datum.str "x") rfl
  refine ⟨rfl, hsecond, hlen, ?_, ?_, ?_⟩
  · show afterB.1.valueIndex = 8 + n + 1
    rw [show afterB = _ from halloc]
    show second.2.valueIndex + 1 = 8 + n + 1
    rw [hsecond]
  · show afterB.2.1.values.lookup (8 + n) = some ⟨8 + n, Datum.str "x"⟩
    rw [show afterB = _ from halloc]
    show (mapSet second.1.values second.2.valueIndex
        ⟨second.2.valueIndex, Datum.str "x"⟩).lookup (8 + n) = _
    rw [hsecond]
    exact lookup_mapSet_self second.1.values (8 + n) ⟨8 + n, Datum.str "x"⟩
  · show mapGet afterB.2.1.values (8 + n) = ⟨8 + n, Datum.str "x"⟩
    unfold mapGet
    rw [show afterB = _ from halloc]
    show (match (mapSet second.1.values second.2.valueIndex
        ⟨second.2.valueIndex, Datum.str "x"⟩).lookup (8 + n) with
      | some v => v
      | none => (⟨0, Datum.goNil⟩ : Value)) = _
    rw [hsecond, lookup_mapSet_self second.1.values (8 + n) ⟨8 + n, Datum.str "x"⟩]

/-- The shared map after the generic-array stand-in was interned at handle 8
and two doubles (1.0 and 2.0, by bits) at handles 9 and 10. -/
def worldArrayScenario : World :=
  ⟨defaultValues ++ [(8, ⟨8, Datum.arr []⟩), (9, ⟨9, Datum.f64 0x3FF0000000000000⟩),
    (10, ⟨10, Datum.f64 0x4000000000000000⟩)]⟩

/-- Guest memory for `construct-new` at `sp = 0`: target handle 8 at `sp+8`,
argument list descriptor at `sp+16` (base 100, length 2), and the two 4-byte
argument handles 9 and 10 at 100 and 104. -/
def memNewArray : Mem := fun x =>
  if x = 8 then 8 else if x = 16 then 100 else if x = 24 then 2
  else if x = 100 then 9 else if x = 104 then 10 else 0

/-- What `jsArray.New` actually builds from those arguments: the slice of the
two decoded argument `Value` structs, re-boxed. -/
def constructedArray : Datum :=
  Datum.arr [Datum.valueV 9 (Datum.f64 0x3FF0000000000000),
             Datum.valueV 10 (Datum.f64 0x4000000000000000)]

/-- Guest memory for a follow-up `get-property` at `sp = 0`: target handle 11
at `sp+8`, property name at `sp+16` (base 100, length 1, the single byte
"0"). -/
def memGet0 : Mem := fun x =>
  if x = 8 then 11 else if x = 16 then 100 else if x = 24 then 1
  else if x = 100 then 48 else 0

/-- **C4** (counterexample).  `construct-new` on the generic-array stand-in
with argument handles for 1.0 and 2.0 does succeed (flag 1, new handle 11),
but the constructed `jsArray` has no `Get` method: it does not implement the
Property-source capability, so getting property "0" terminates the guest
instead of yielding 1.0. -/
theorem construct_new_array_result_lacks_getter :
    readLE (exportValueNew ⟨11⟩ worldArrayScenario memNewArray 0).2.2.1 48 1 = 1 ∧
    (exportValueNew ⟨11⟩ worldArrayScenario memNewArray 0).2.1.values.lookup 11
      = some ⟨11, constructedArray⟩ ∧
    isGetter constructedArray = false ∧
    (exportValueGet (exportValueNew ⟨11⟩ worldArrayScenario memNewArray 0).1
        (exportValueNew ⟨11⟩ worldArrayScenario memNewArray 0).2.1 memGet0 0).2.2.2
      = Outcome.terminated :=
  ⟨by decide, rfl, rfl, rfl⟩

/-- **C4** (amended).  The same scenario, positively: `construct-new` on the
generic-array stand-in with arguments [1.0, 2.0] returns normally with
success flag 1 and allocates exactly handle 11 for a new array-like `Value`
whose datum is the list of the two decoded argument `Value` structs; that
datum does not implement the Property-source capability, and `get-property`
of "0" on it terminates the guest session without touching the state. -/
theorem construct_new_array_scenario :
    (exportValueNew ⟨11⟩ worldArrayScenario memNewArray 0).2.2.2 = Outcome.normal ∧
    readLE (exportValueNew ⟨11⟩ worldArrayScenario memNewArray 0).2.2.1 48 1 = 1 ∧
    (exportValueNew ⟨11⟩ worldArrayScenario memNewArray 0).1.valueIndex = 12 ∧
    (exportValueNew ⟨11⟩ worldArrayScenario memNewArray 0).2.1.values.lookup 11
      = some ⟨11, constructedArray⟩ ∧
    constructedArray
      = Datum.arr ((loadSliceOfValues worldArrayScenario memNewArray 16).map boxValue) ∧
    isGetter constructedArray = false ∧
    exportValueGet (exportValueNew ⟨11⟩ worldArrayScenario memNewArray 0).1
        (exportValueNew ⟨11⟩ worldArrayScenario memNewArray 0).2.1 memGet0 0
      = ((exportValueNew ⟨11⟩ worldArrayScenario memNewArray 0).1,
         (exportValueNew ⟨11⟩ worldArrayScenario memNewArray 0).2.1, memGet0,
         Outcome.terminated) :=
  ⟨rfl, by decide, rfl, rfl, rfl, rfl, rfl⟩

/-- The shared map after the typed-byte-array stand-in was interned at
handle 8. -/
def worldWithInt8Array8 : World := ⟨defaultValues ++ [(8, ⟨8, Datum.int8arr []⟩)]⟩

/-- Guest memory for `construct-new` at `sp = 0`: target handle 8 at `sp+8`,
argument list descriptor at `sp+16` (base 100, length 1); the 4-byte handle
at 100 is 0. -/
def memNewInt8 : Mem := fun x =>
  if x = 8 then 8 else if x = 16 then 100 else if x = 24 then 1 else 0

/-- **C5** (counterexample).  A `jsInt8Array` target *is* Constructible, yet
`construct-new` with one argument does not encode the constructed value and
set flag 1: `jsInt8Array.New` type-asserts `v.(int8)` on each argument, and
the arguments are always `Value` structs, so the assertion panics; nothing
is written (the flag byte still reads 0). -/
theorem exportValueNew_int8array_args_panic :
    isNewer (loadValue worldWithInt8Array8 memNewInt8 8).v = true ∧
    exportValueNew ⟨9⟩ worldWithInt8Array8 memNewInt8 0
      = (⟨9⟩, worldWithInt8Array8, memNewInt8, Outcome.panicked) ∧
    readLE memNewInt8 48 1 = 0 ∧
    (0 : Nat) ≠ 1 :=
  ⟨rfl, rfl, by decide, by decide⟩

theorem jsNew_allocatesDirect (d : Datum) (args : List Value) (res : Datum)
    (h : jsNew d args = some res) : allocatesDirect res = true := by
  cases d with
  | arr l =>
      simp only [jsNew, Option.some.injEq] at h
      rw [← h]
      rfl
  | int8arr l =>
      by_cases he : args.isEmpty = true
      · simp only [jsNew, he, if_true, Option.some.injEq] at h
        rw [← h]
        rfl
      · simp [jsNew, he] at h
  | goNil => simp [jsNew] at h
  | emptyStruct => simp [jsNew] at h
  | boolean b => simp [jsNew] at h
  | f64 bits => simp [jsNew] at h
  | str s => simp [jsNew] at h
  | intConst n => simp [jsNew] at h
  | fn s => simp [jsNew] at h
  | obj l => simp [jsNew] at h
  | valueV r dd => simp [jsNew] at h

theorem jsNew_isNewer (d : Datum) (args : List Value) (res : Datum)
    (h : jsNew d args = some res) : isNewer d = true := by
  cases d with
  | arr l => rfl
  | int8arr l => rfl
  | goNil => simp [jsNew] at h
  | emptyStruct => simp [jsNew] at h
  | boolean b => simp [jsNew] at h
  | f64 bits => simp [jsNew] at h
  | str s => simp [jsNew] at h
  | intConst n => simp [jsNew] at h
  | fn s => simp [jsNew] at h
  | obj l => simp [jsNew] at h
  | valueV r dd => simp [jsNew] at h

/-- Reads of the result slot and flag byte as `exportValueNew` leaves them. -/
theorem exportValueNew_mem_reads (m : Mem) (sp p t fl : Nat) (ht : t < 2 ^ 32) :
    readLE (setUInt8 (setUInt32 (setUInt32 m (sp + 40 + 4) t) (sp + 40) p)
        (sp + 48) fl) (sp + 48) 1 = fl % 256 ∧
    readLE (setUInt8 (setUInt32 (setUInt32 m (sp + 40 + 4) t) (sp + 40) p)
        (sp + 48) fl) (sp + 40 + 4) 4 = t ∧
    readLE (setUInt8 (setUInt32 (setUInt32 m (sp + 40 + 4) t) (sp + 40) p)
        (sp + 48) fl) (sp + 40) 4 = p % 2 ^ 32 := by
  unfold setUInt8
  refine ⟨?_, ?_, ?_⟩
  · rw [readLE_writeLE]
    have e1 : (2 : Nat) ^ 8 = 256 := by norm_num
    have e2 : (256 : Nat) ^ 1 = 256 := by norm_num
    rw [e1, e2, Nat.mod_mod_of_dvd fl dvd_rfl]
  · rw [readLE_writeLE_disjoint 4 _ (sp + 40 + 4) 1 (sp + 48) _ (Or.inl (by omega))]
    exact readTag m (sp + 40) p t ht
  · rw [readLE_writeLE_disjoint 4 _ (sp + 40) 1 (sp + 48) _ (Or.inl (by omega))]
    exact readPayload m (sp + 40) p t

/-- **C5** (amended).  `construct-new` on a target without the Constructible
capability returns normally with the failure flag 0, encodes an
error-wrapper object at the result slot, and allocates exactly one handle —
the error object — touching no other table entry.  On a Constructible
target it encodes the constructed value under a fresh handle and sets
flag 1 *provided the construction returns* (for a `jsInt8Array` target with
a non-empty argument list it instead panics; see the counterexample). -/
theorem exportValueNew_paths_spec (g : Go) (w : World) (m : Mem) (sp : Nat)
    (hfresh : w.values.lookup g.valueIndex = none) :
    (isNewer (loadValue w m (sp + 8)).v = false →
      (exportValueNew g w m sp).2.2.2 = Outcome.normal ∧
      (exportValueNew g w m sp).1.valueIndex = g.valueIndex + 1 ∧
      (exportValueNew g w m sp).2.1.values.length = w.values.length + 1 ∧
      (exportValueNew g w m sp).2.1.values.lookup g.valueIndex
        = some ⟨g.valueIndex, newJSError (notANewerMsg (loadValue w m (sp + 8)))⟩ ∧
      (∀ k, k ≠ g.valueIndex →
        (exportValueNew g w m sp).2.1.values.lookup k = w.values.lookup k) ∧
      readLE (exportValueNew g w m sp).2.2.1 (sp + 48) 1 = 0 ∧
      readLE (exportValueNew g w m sp).2.2.1 (sp + 40 + 4) 4 = nanHead ∧
      readLE (exportValueNew g w m sp).2.2.1 (sp + 40) 4 = g.valueIndex % 2 ^ 32) ∧
    (∀ res, jsNew (loadValue w m (sp + 8)).v (loadSliceOfValues w m (sp + 16))
        = some res →
      (exportValueNew g w m sp).2.2.2 = Outcome.normal ∧
      (exportValueNew g w m sp).1.valueIndex = g.valueIndex + 1 ∧
      (exportValueNew g w m sp).2.1.values.lookup g.valueIndex
        = some ⟨g.valueIndex, res⟩ ∧
      readLE (exportValueNew g w m sp).2.2.1 (sp + 48) 1 = 1) := by
  constructor
  · intro hng
    have hsv := storeValue_alloc g w m (sp + 40)
      (newJSError (notANewerMsg (loadValue w m (sp + 8)))) rfl
    have hred : exportValueNew g w m sp
        = (⟨g.valueIndex + 1⟩,
           ⟨mapSet w.values g.valueIndex
             ⟨g.valueIndex, newJSError (notANewerMsg (loadValue w m (sp + 8)))⟩⟩,
           setUInt8 (setUInt32 (setUInt32 m (sp + 40 + 4)
               (nanHead ||| typeFlag (newJSError (notANewerMsg (loadValue w m (sp + 8))))))
             (sp + 40) g.valueIndex) (sp + 48) 0,
           Outcome.normal) := by
      simp only [exportValueNew, hng, Bool.false_eq_true, if_false, hsv]
    obtain ⟨f1, f2, f3⟩ := exportValueNew_mem_reads m sp g.valueIndex
      (nanHead ||| typeFlag (newJSError (notANewerMsg (loadValue w m (sp + 8))))) 0
      (typeFlag_lt _)
    rw [hred]
    refine ⟨rfl, rfl, ?_, ?_, ?_, ?_, ?_, ?_⟩
    · exact length_mapSet_none w.values g.valueIndex _ hfresh
    · exact lookup_mapSet_self w.values g.valueIndex _
    · exact fun k hk => lookup_mapSet_ne w.values g.valueIndex k _ hk
    · exact f1
    · exact f2.trans (by simp [newJSError, typeFlag])
    · exact f3
  · intro res hres
    have hnew := jsNew_isNewer _ _ _ hres
    have had := jsNew_allocatesDirect _ _ _ hres
    have hsv := storeValue_alloc g w m (sp + 40) res had
    have hred : exportValueNew g w m sp
        = (⟨g.valueIndex + 1⟩,
           ⟨mapSet w.values g.valueIndex ⟨g.valueIndex, res⟩⟩,
           setUInt8 (setUInt32 (setUInt32 m (sp + 40 + 4) (nanHead ||| typeFlag res))
             (sp + 40) g.valueIndex) (sp + 48) 1,
           Outcome.normal) := by
      simp only [exportValueNew, hnew, if_true, hres, hsv]
    obtain ⟨f1, _, _⟩ := exportValueNew_mem_reads m sp g.valueIndex
      (nanHead ||| typeFlag res) 1 (typeFlag_lt _)
    rw [hred]
    exact ⟨rfl, rfl, lookup_mapSet_self w.values g.valueIndex _, f1⟩

theorem exportValueNew_paths_spec_witness :
    (exportValueNew ⟨8⟩ initialWorld zeroMem 0).2.2.2 = Outcome.normal ∧
    (exportValueNew ⟨8⟩ initialWorld zeroMem 0).1.valueIndex = 9 ∧
    readLE (exportValueNew ⟨8⟩ initialWorld zeroMem 0).2.2.1 48 1 = 0 :=
  have h := (exportValueNew_paths_spec ⟨8⟩ initialWorld zeroMem 0 rfl).1 rfl
  ⟨h.1, h.2.1, h.2.2.2.2.2.1⟩

end Wagon
